import Mathlib

/-!
Verification of the syft-parser license-normalization pipeline (src/main.rs).

Rust strings are modelled as `List Char`.  Each definition below mirrors one
Rust function or closure of the source:

* `trimL`                      — `str::trim` (drop whitespace at both ends);
* `splitPred p`                — `str::split` on a set of single characters
                                 (keeps empty fragments, exactly like Rust);
* `joinSep`                    — `Vec::join`;
* `entryCandidate`/`entryToken`— the closure inside `filter_map` of
                                 `extract_syft_license_info` (main.rs:115-137);
* `extract_syft_license_info`  — main.rs:110-149;
* `split_license_expression`   — main.rs:151-169;
* `processLine`                — the per-line closure in `flat_map`
                                 (main.rs:243-260);
* `allLicenses`                — the whole license pipeline of `main`
                                 (main.rs:241-262);
* `formatLicenses`/`mkCsvRecord` — main.rs:264-287 (the output mode is
                                 `table` exactly when `--csv` was absent);
* `processSyftOutput`/`print_table` — main.rs:226-232 and 171-180.
-/

abbrev Str := List Char

/-- Rust `char::is_whitespace` restricted to the ASCII whitespace actually
relevant to license strings (space, tab, CR, LF). -/
def isWS (c : Char) : Bool := c.isWhitespace

/-- Rust `str::trim`: remove whitespace from both ends. -/
def trimL (s : Str) : Str := (s.dropWhile isWS).rdropWhile isWS

/-- Rust `str::split` with a character-set pattern: split at every character
satisfying `p`, keeping empty fragments (`"a,,b".split(',')` gives
`["a","","b"]`, `"".split(',')` gives `[""]`). -/
def splitPred (p : Char → Bool) : Str → List Str
  | [] => [[]]
  | c :: cs =>
    if p c then
      [] :: splitPred p cs
    else
      match splitPred p cs with
      | [] => [[c]]
      | f :: rest => (c :: f) :: rest

/-- Rust `Vec::join(sep)`. -/
def joinSep (sep : Str) : List Str → Str
  | [] => []
  | [x] => x
  | x :: y :: xs => x ++ sep ++ joinSep sep (y :: xs)

/-- Rust `str::eq_ignore_ascii_case` (ASCII letters compared case-blind). -/
def eqIgnoreAsciiCase (a b : Str) : Bool :=
  a.map Char.toLower == b.map Char.toLower

/-- The operator test of main.rs:247:
`trimmed.contains(" AND ") || trimmed.contains(" OR ") || trimmed.contains(" WITH ")`
(case-sensitive substring search). -/
def containsOp (s : Str) : Bool :=
  decide (" AND ".data <:+: s) || decide (" OR ".data <:+: s) ||
    decide (" WITH ".data <:+: s)

/-- The two shapes of the untagged `SyftLicense` enum (main.rs:32-45).
The opaque `other` map is never read and is omitted. -/
inductive SyftLicense where
  | Simple (s : Str)
  | Detailed (value : Option Str) (spdx_expression : Option Str)
      (license_type : Option Str)
deriving DecidableEq

/-- The candidate selection of main.rs:116-127:
a bare string is its own candidate; for a detailed entry the code takes
`spdx_expression.clone().or_else(|| value.clone())`. -/
def entryCandidate : SyftLicense → Option Str
  | SyftLicense.Simple license_str => some license_str
  | SyftLicense.Detailed value spdx_expression _ =>
      spdx_expression.orElse fun _ => value

/-- The whole `filter_map` closure of main.rs:115-137: candidate selection
followed by trimming, dropping candidates that are blank after the trim. -/
def entryToken (license : SyftLicense) : Option Str :=
  (entryCandidate license).bind fun s =>
    if (trimL s).isEmpty then none else some (trimL s)

/-- main.rs:110-149. -/
def extract_syft_license_info : Option (List SyftLicense) → Str
  | some license_vec =>
    if (license_vec.filterMap entryToken).isEmpty then "None".data
    else joinSep "\n".data (license_vec.filterMap entryToken)
  | none => "None".data

/-- The delimiter set of main.rs:155: `&[' ', '(', ')']`. -/
def isSplitDelim (c : Char) : Bool := c == ' ' || c == '(' || c == ')'

/-- The operator-fragment test of main.rs:160-162. -/
def isOpFragment (t : Str) : Bool :=
  eqIgnoreAsciiCase t "AND".data || eqIgnoreAsciiCase t "OR".data ||
    eqIgnoreAsciiCase t "WITH".data

/-- main.rs:151-169. -/
def split_license_expression (license_expr : Str) : List Str :=
  (splitPred isSplitDelim license_expr).filterMap fun part =>
    if (trimL part).isEmpty || isOpFragment (trimL part) then none
    else some (trimL part)

/-- The per-line closure of main.rs:243-260 inside `flat_map`. -/
def processLine (license_line : Str) : List Str :=
  if (trimL license_line).isEmpty || trimL license_line == "None".data then []
  else if containsOp (trimL license_line) then
    split_license_expression (trimL license_line)
  else if (trimL license_line).contains ';' then
    ((splitPred (fun c => c == ';') (trimL license_line)).map trimL).filter
      fun s => !s.isEmpty
  else [trimL license_line]

/-- main.rs:241-262: split the extractor output on newlines, process each
line, and apply the final emptiness/"None" filter. -/
def allLicenses (licenses_raw : Str) : List Str :=
  ((splitPred (fun c => c == '\n') licenses_raw).flatMap processLine).filter
    fun s => !s.isEmpty && !(s == "None".data)

/-- Output mode: `table` when `--csv` is absent, `csv` when present
(main.rs:265). -/
inductive OutputMode where
  | table
  | csv
deriving DecidableEq

/-- main.rs:264-279: mode-specific joining of the token list. -/
def formatLicenses : OutputMode → List Str → Str
  | OutputMode.table, all_licenses =>
    if all_licenses.isEmpty then "None".data else joinSep "\n".data all_licenses
  | OutputMode.csv, all_licenses =>
    if all_licenses.isEmpty then "None".data else joinSep "; ".data all_licenses

/-- The deserialized artifact (main.rs:18-30); the opaque `other` map is
never read and is omitted. -/
structure Artifact where
  name : Option Str
  version : Option Str
  artifact_type : Option Str
  licenses : Option (List SyftLicense)
  package_url : Option Str
  language : Option Str
deriving DecidableEq

/-- The output row (main.rs:47-54). -/
structure CsvRecord where
  name : Str
  version : Str
  artifact_type : Str
  licenses : Str
deriving DecidableEq

/-- main.rs:235-288: one artifact to one output row. -/
def mkCsvRecord (mode : OutputMode) (artifact : Artifact) : CsvRecord where
  name := artifact.name.getD "Unknown".data
  version := artifact.version.getD "Unknown".data
  artifact_type := artifact.artifact_type.getD "Unknown".data
  licenses :=
    formatLicenses mode (allLicenses (extract_syft_license_info artifact.licenses))

/-- The decoded document root (main.rs:11-16); the opaque `other` map is
never read and is omitted. -/
structure SyftOutput where
  artifacts : Option (List Artifact)
deriving DecidableEq

/-- main.rs:226-232 followed by main.rs:235-288: a document with no
`artifacts` key is the fatal error path (stderr message, `process::exit(1)`);
otherwise every artifact is converted to a row. -/
def processSyftOutput (mode : OutputMode) (output : SyftOutput) :
    Except Str (List CsvRecord) :=
  match output.artifacts with
  | none => Except.error "No artifacts found in Syft output".data
  | some artifacts => Except.ok (artifacts.map (mkCsvRecord mode))

/-- The process exit status of the artifact-extraction step: 1 on the fatal
path, 0 otherwise. -/
def exitCode : Except Str (List CsvRecord) → Nat
  | Except.error _ => 1
  | Except.ok _ => 0

/-- What `print_table` (main.rs:171-180) emits, abstracting the grid
rendering of the external `tabled` crate. -/
inductive TableRender where
  | message (text : Str)
  | grid (rows : List CsvRecord) (total : Nat)
deriving DecidableEq

/-- main.rs:171-180. -/
def print_table (records : List CsvRecord) : TableRender :=
  if records.isEmpty then TableRender.message "No artifacts found.".data
  else TableRender.grid records records.length

/-- The candidate rule exactly as claim C1 words it: for a structured entry
the formal SPDX expression if present and non-blank, otherwise the free-form
value if present and non-blank, otherwise no candidate; for a bare entry the
string itself. -/
def claimCandidateC1 : SyftLicense → Option Str
  | SyftLicense.Simple s => some s
  | SyftLicense.Detailed value spdx_expression _ =>
    match spdx_expression, value with
    | some e, some v =>
      if !(trimL e).isEmpty then some e
      else if !(trimL v).isEmpty then some v
      else none
    | some e, none => if !(trimL e).isEmpty then some e else none
    | none, some v => if !(trimL v).isEmpty then some v else none
    | none, none => none

/-- Claim C1's per-entry contribution: its candidate, trimmed, dropped when
blank after the trim (spec steps 2-3). -/
def claimTokenC1 (license : SyftLicense) : Option Str :=
  (claimCandidateC1 license).bind fun s =>
    if (trimL s).isEmpty then none else some (trimL s)

/-- The amended candidate rule: for a structured entry the formal SPDX
expression whenever that field is present — even when blank, in which case the
entry contributes nothing and the free-form value is not consulted — otherwise
the free-form value if present; every candidate is trimmed and dropped when
blank; for a bare entry the candidate is that string. -/
def amendedTokenC1 : SyftLicense → Option Str
  | SyftLicense.Simple s => if (trimL s).isEmpty then none else some (trimL s)
  | SyftLicense.Detailed value spdx_expression _ =>
    match spdx_expression, value with
    | some e, _ => if (trimL e).isEmpty then none else some (trimL e)
    | none, some v => if (trimL v).isEmpty then none else some (trimL v)
    | none, none => none

/-- The splitting rule exactly as claim C2 words it: split the line on the
space and parenthesis delimiter characters, trim the fragments, discard the
blank ones and those case-insensitively equal to AND, OR or WITH, keep the
rest in order. -/
def claimSplitC2 (line : Str) : List Str :=
  ((splitPred isSplitDelim line).map trimL).filter fun t =>
    !t.isEmpty && !eqIgnoreAsciiCase t "AND".data &&
      !eqIgnoreAsciiCase t "OR".data && !eqIgnoreAsciiCase t "WITH".data

/-- The splitting rule exactly as claim C5 words it: split the line on the
semicolon, trim each part, discard empty parts, keep the rest in order. -/
def claimSplitC5 (line : Str) : List Str :=
  ((splitPred (fun c => c == ';') line).map trimL).filter fun t => !t.isEmpty

theorem splitPred_ne_nil (p : Char → Bool) (l : Str) : splitPred p l ≠ [] := by
  cases l with
  | nil => simp [splitPred]
  | cons c cs =>
    by_cases h : p c
    · simp [splitPred, h]
    · simp only [splitPred, h, Bool.false_eq_true, if_false]
      cases splitPred p cs <;> simp

theorem splitPred_nosep (p : Char → Bool) (l : Str) (h : ∀ c ∈ l, p c = false) :
    splitPred p l = [l] := by
  induction l with
  | nil => rfl
  | cons c cs ih =>
    have hc : p c = false := h c (by simp)
    have ih' := ih fun x hx => h x (by simp [hx])
    simp [splitPred, hc, ih']

theorem splitPred_append_sep (p : Char → Bool) (a l : Str) (d : Char)
    (ha : ∀ c ∈ a, p c = false) (hd : p d = true) :
    splitPred p (a ++ d :: l) = a :: splitPred p l := by
  induction a with
  | nil => simp [splitPred, hd]
  | cons c a ih =>
    have hc : p c = false := ha c (by simp)
    have ih' := ih fun x hx => ha x (by simp [hx])
    simp [splitPred, hc, ih']

theorem splitPred_joinSep (p : Char → Bool) (d : Char) (hd : p d = true) :
    ∀ T : List Str, T ≠ [] → (∀ t ∈ T, ∀ c ∈ t, p c = false) →
      splitPred p (joinSep [d] T) = T
  | [], h, _ => absurd rfl h
  | [t], _, h => by
    simpa [joinSep] using splitPred_nosep p t (h t (by simp))
  | t :: u :: T, _, h => by
    have hj : joinSep [d] (t :: u :: T) = t ++ d :: joinSep [d] (u :: T) := by
      simp [joinSep]
    rw [hj, splitPred_append_sep p t _ d (h t (by simp)) hd,
      splitPred_joinSep p d hd (u :: T) (by simp)
        fun x hx => h x (List.mem_cons_of_mem t hx)]

theorem dropWhile_cons_self (p : Char → Bool) (c : Char) (l : Str)
    (h : List.dropWhile p (c :: l) = c :: l) : p c = false := by
  by_cases hc : p c
  · exfalso
    rw [List.dropWhile_cons, if_pos hc] at h
    have hle := (List.dropWhile_suffix (l := l) p).length_le
    rw [h] at hle
    simp at hle
  · simpa using hc

theorem dropWhile_append_clean (p : Char → Bool) (a b : Str) (hne : a ≠ [])
    (ha : List.dropWhile p a = a) : List.dropWhile p (a ++ b) = a ++ b := by
  cases a with
  | nil => exact absurd rfl hne
  | cons c a =>
    have hc := dropWhile_cons_self p c a ha
    simp [List.dropWhile_cons, hc]

theorem rdropWhile_append_clean (p : Char → Bool) (a b : Str) (hne : b ≠ [])
    (hb : List.rdropWhile p b = b) : List.rdropWhile p (a ++ b) = a ++ b := by
  rw [List.rdropWhile_eq_self_iff]
  intro hab
  rw [List.getLast_append' a b hne]
  exact List.rdropWhile_eq_self_iff.mp hb hne

theorem trimL_fix_dropWhile {t : Str} (h : trimL t = t) :
    List.dropWhile isWS t = t := by
  have h1 : trimL t <+: List.dropWhile isWS t :=
    List.rdropWhile_prefix isWS (List.dropWhile isWS t)
  have h2 : List.dropWhile isWS t <:+ t := List.dropWhile_suffix isWS
  have hlen : t.length ≤ (List.dropWhile isWS t).length := by
    have := h1.length_le
    rwa [h] at this
  exact h2.eq_of_length (Nat.le_antisymm h2.length_le hlen)

theorem trimL_fix_rdropWhile {t : Str} (h : trimL t = t) :
    List.rdropWhile isWS t = t :=
  calc List.rdropWhile isWS t
      = List.rdropWhile isWS (List.dropWhile isWS t) := by
        rw [trimL_fix_dropWhile h]
    _ = trimL t := rfl
    _ = t := h

theorem dropWhile_eq_self_of_pre (p : Char → Bool) {x y : Str} (hp : x <+: y)
    (hy : List.dropWhile p y = y) : List.dropWhile p x = x := by
  rw [List.dropWhile_eq_self_iff] at hy ⊢
  intro hl
  have hly : 0 < y.length := lt_of_lt_of_le hl hp.length_le
  have hNy := hy hly
  have hg : x.get ⟨0, hl⟩ = y.get ⟨0, hly⟩ := by
    simpa [List.get_eq_getElem] using hp.getElem (n := 0) hl
  rwa [hg]

theorem trimL_idem (l : Str) : trimL (trimL l) = trimL l := by
  have h1 : List.dropWhile isWS (trimL l) = trimL l :=
    dropWhile_eq_self_of_pre isWS
      (List.rdropWhile_prefix isWS (List.dropWhile isWS l))
      (List.dropWhile_idempotent isWS l)
  show List.rdropWhile isWS (List.dropWhile isWS (trimL l)) = trimL l
  rw [h1]
  show List.rdropWhile isWS (List.rdropWhile isWS (List.dropWhile isWS l)) = trimL l
  rw [List.rdropWhile_idempotent]
  rfl

theorem joinSep_ne_nil (sep : Str) (t : Str) (T : List Str) (h : t ≠ []) :
    joinSep sep (t :: T) ≠ [] := by
  cases T with
  | nil => simpa [joinSep] using h
  | cons u T =>
    simp only [joinSep]
    exact List.append_ne_nil_of_left_ne_nil
      (List.append_ne_nil_of_left_ne_nil h sep) _

theorem dropWhile_joinSep_clean (sep : Str) (t : Str) (T : List Str)
    (hne : t ≠ []) (hc : List.dropWhile isWS t = t) :
    List.dropWhile isWS (joinSep sep (t :: T)) = joinSep sep (t :: T) := by
  cases T with
  | nil => simpa [joinSep] using hc
  | cons u T =>
    show List.dropWhile isWS (t ++ sep ++ joinSep sep (u :: T)) =
      t ++ sep ++ joinSep sep (u :: T)
    rw [List.append_assoc]
    exact dropWhile_append_clean isWS t _ hne hc

theorem rdropWhile_joinSep_clean (sep : Str) :
    ∀ T : List Str, T ≠ [] →
      (∀ t ∈ T, t ≠ [] ∧ List.rdropWhile isWS t = t) →
      List.rdropWhile isWS (joinSep sep T) = joinSep sep T
  | [], h, _ => absurd rfl h
  | [t], _, h => by simpa [joinSep] using (h t (by simp)).2
  | t :: u :: T, _, h => by
    show List.rdropWhile isWS (t ++ sep ++ joinSep sep (u :: T)) = _
    have hJ := rdropWhile_joinSep_clean sep (u :: T) (by simp)
      fun x hx => h x (List.mem_cons_of_mem t hx)
    have hJne : joinSep sep (u :: T) ≠ [] :=
      joinSep_ne_nil sep u T (h u (by simp)).1
    exact rdropWhile_append_clean isWS (t ++ sep) _ hJne hJ

theorem trimL_joinSep_clean (sep : Str) (T : List Str) (hT : T ≠ [])
    (h : ∀ t ∈ T, t ≠ [] ∧ trimL t = t) :
    trimL (joinSep sep T) = joinSep sep T := by
  cases T with
  | nil => exact absurd rfl hT
  | cons t T =>
    have h1 : List.dropWhile isWS (joinSep sep (t :: T)) = joinSep sep (t :: T) :=
      dropWhile_joinSep_clean sep t T (h t (by simp)).1
        (trimL_fix_dropWhile (h t (by simp)).2)
    have h2 : List.rdropWhile isWS (joinSep sep (t :: T)) = joinSep sep (t :: T) :=
      rdropWhile_joinSep_clean sep (t :: T) (by simp)
        fun x hx => ⟨(h x hx).1, trimL_fix_rdropWhile (h x hx).2⟩
    show List.rdropWhile isWS (List.dropWhile isWS (joinSep sep (t :: T))) = _
    rw [h1, h2]

theorem filterMap_guard {α β : Type} (f : α → β) (b : α → Bool) (l : List α) :
    (l.filterMap fun x => if b x then none else some (f x)) =
      (l.filter fun x => !b x).map f := by
  induction l with
  | nil => rfl
  | cons x xs ih =>
    by_cases h : b x
    · simp [List.filterMap_cons, List.filter_cons, h, ih]
    · simp [List.filterMap_cons, List.filter_cons, h, ih]

theorem processLine_atomic (t : Str) (h1 : trimL t = t) (h2 : t ≠ [])
    (h3 : t ≠ "None".data) (h4 : containsOp t = false)
    (h5 : t.contains ';' = false) : processLine t = [t] := by
  have e1 : t.isEmpty = false := by
    cases t with
    | nil => exact absurd rfl h2
    | cons c cs => rfl
  have e2 : (t == "None".data) = false := beq_eq_false_iff_ne.mpr h3
  unfold processLine
  rw [h1, e1, e2, h4, h5]
  simp

theorem mem_beq_false_of_contains_eq_false {c : Char} {l : Str}
    (h : l.contains c = false) : ∀ x ∈ l, (x == c) = false := by
  intro x hx
  by_cases hxc : x = c
  · subst hxc
    have hc : l.contains x = true := List.elem_iff.mpr hx
    rw [h] at hc
    exact absurd hc Bool.false_ne_true
  · exact beq_eq_false_iff_ne.mpr hxc

/-- Claim C1 is falsified by the structured entry with value "MIT" and
spdxExpression " ": the claim selects the non-blank value "MIT", but the code
takes the present-but-blank expression field and drops the whole entry, so
the extractor reports "None". -/
theorem C1_counterexample :
    entryToken (SyftLicense.Detailed (some "MIT".data) (some " ".data) none) ≠
      claimTokenC1 (SyftLicense.Detailed (some "MIT".data) (some " ".data) none) ∧
    entryToken (SyftLicense.Detailed (some "MIT".data) (some " ".data) none) = none ∧
    claimTokenC1 (SyftLicense.Detailed (some "MIT".data) (some " ".data) none) =
      some "MIT".data ∧
    extract_syft_license_info
        (some [SyftLicense.Detailed (some "MIT".data) (some " ".data) none]) =
      "None".data := by
  refine ⟨by decide, by decide, by decide, by decide⟩

/-- Claim C1 (amended): for every license entry, the License Extractor's
per-entry contribution follows the amended candidate rule: the formal SPDX
expression is preferred whenever present, even when blank; a bare entry
contributes its own string; candidates blank after trimming are dropped. -/
theorem C1_amended_thm (license : SyftLicense) :
    entryToken license = amendedTokenC1 license := by
  cases license with
  | Simple s => rfl
  | Detailed value spdx_expression license_type =>
    cases spdx_expression with
    | none => cases value <;> rfl
    | some e => cases value <;> rfl

theorem C1_amended_witness :
    entryToken (SyftLicense.Detailed (some "Custom License".data) none none) =
      amendedTokenC1 (SyftLicense.Detailed (some "Custom License".data) none none) :=
  C1_amended_thm (SyftLicense.Detailed (some "Custom License".data) none none)

theorem split_license_expression_eq_claim (line : Str) :
    split_license_expression line = claimSplitC2 line := by
  unfold split_license_expression claimSplitC2
  generalize splitPred isSplitDelim line = parts
  induction parts with
  | nil => rfl
  | cons x xs ih =>
    have hcond : (!(trimL x).isEmpty && !eqIgnoreAsciiCase (trimL x) "AND".data &&
        !eqIgnoreAsciiCase (trimL x) "OR".data &&
        !eqIgnoreAsciiCase (trimL x) "WITH".data) =
        !((trimL x).isEmpty || isOpFragment (trimL x)) := by
      simp [isOpFragment, Bool.not_or, Bool.and_assoc]
    by_cases h : ((trimL x).isEmpty || isOpFragment (trimL x)) = true
    · simp only [List.filterMap_cons, List.map_cons, List.filter_cons, h,
        if_pos, hcond, Bool.not_true, ih]
      simp [h]
    · have h' : ((trimL x).isEmpty || isOpFragment (trimL x)) = false :=
        Bool.eq_false_iff.mpr h
      simp only [List.filterMap_cons, List.map_cons, List.filter_cons, h',
        hcond, ih]
      simp [h']

/-- Claim C2: a trimmed license line containing a space-delimited SPDX
operator substring is split on the space and parenthesis characters; empty
fragments and operator fragments (case-insensitive) are discarded and the
remaining trimmed fragments are returned in order. -/
theorem C2_thm (line : Str) (ht : trimL line = line)
    (hop : containsOp line = true) :
    processLine line = claimSplitC2 line := by
  have h2 : line ≠ [] := by
    rintro rfl
    exact absurd hop (by decide)
  have h3 : (line == "None".data) = false := by
    by_cases h : line = "None".data
    · subst h; exact absurd hop (by decide)
    · exact beq_eq_false_iff_ne.mpr h
  have e1 : line.isEmpty = false := by
    cases line with
    | nil => exact absurd rfl h2
    | cons c cs => rfl
  unfold processLine
  rw [ht, e1, h3, hop]
  simpa using split_license_expression_eq_claim line

theorem C2_witness :
    processLine "MIT AND Apache-2.0".data = ["MIT".data, "Apache-2.0".data] :=
  (C2_thm "MIT AND Apache-2.0".data (by decide) (by decide)).trans (by decide)

/-- Claim C5: a trimmed license line with no space-delimited SPDX operator
substring but containing a semicolon is split on the semicolon; the parts are
trimmed, empty parts discarded, and the rest kept in order. -/
theorem C5_thm (line : Str) (ht : trimL line = line)
    (hop : containsOp line = false) (hsemi : line.contains ';' = true) :
    processLine line = claimSplitC5 line := by
  have h2 : line ≠ [] := by
    rintro rfl
    exact absurd hsemi (by decide)
  have h3 : (line == "None".data) = false := by
    by_cases h : line = "None".data
    · subst h; exact absurd hsemi (by decide)
    · exact beq_eq_false_iff_ne.mpr h
  have e1 : line.isEmpty = false := by
    cases line with
    | nil => exact absurd rfl h2
    | cons c cs => rfl
  unfold processLine claimSplitC5
  rw [ht, e1, h3, hop, hsemi]
  simp

theorem C5_witness :
    processLine "BSD-3-Clause; MIT".data = ["BSD-3-Clause".data, "MIT".data] :=
  (C5_thm "BSD-3-Clause; MIT".data (by decide) (by decide) (by decide)).trans
    (by decide)

/-- Claim C6: a trimmed, non-blank license line different from "None" that
contains neither a space-delimited SPDX operator substring nor a semicolon
passes through the splitter as a single atomic token equal to the line; in
particular operator text without surrounding spaces is not detected. -/
theorem C6_thm (line : Str) (ht : trimL line = line) (hne : line ≠ [])
    (hnone : line ≠ "None".data) (hop : containsOp line = false)
    (hsemi : line.contains ';' = false) :
    processLine line = [line] :=
  processLine_atomic line ht hne hnone hop hsemi

theorem C6_witness :
    processLine "(MIT)AND(ISC)".data = ["(MIT)AND(ISC)".data] :=
  C6_thm "(MIT)AND(ISC)".data (by decide) (by decide) (by decide) (by decide)
    (by decide)

theorem isEmpty_false_of_ne_nil {α : Type} {l : List α} (h : l ≠ []) :
    l.isEmpty = false := by
  cases l with
  | nil => exact absurd rfl h
  | cons c cs => rfl

theorem flatMap_singleton_of (l : List Str) (f : Str → List Str)
    (h : ∀ x ∈ l, f x = [x]) : l.flatMap f = l := by
  induction l with
  | nil => rfl
  | cons x xs ih =>
    rw [List.flatMap_cons, h x (by simp), ih fun y hy => h y (by simp [hy])]
    rfl

/-- Claim C3: joining a sequence of atomic license tokens (trimmed, non-blank,
different from "None", free of newline, semicolon and space-delimited SPDX
operator substrings) with newlines — the table-mode join — and re-running the
extraction-and-splitting pipeline on the joined line reproduces exactly the
original sequence, in order. -/
theorem C3_thm (T : List Str)
    (h : ∀ t ∈ T, t ≠ [] ∧ trimL t = t ∧ t ≠ "None".data ∧
      t.contains '\n' = false ∧ t.contains ';' = false ∧ containsOp t = false) :
    allLicenses (extract_syft_license_info
      (some [SyftLicense.Simple (joinSep "\n".data T)])) = T := by
  cases T with
  | nil => decide
  | cons t T =>
    have hmem : ∀ x ∈ t :: T, x ≠ [] ∧ trimL x = x :=
      fun x hx => ⟨(h x hx).1, (h x hx).2.1⟩
    have htrim : trimL (joinSep "\n".data (t :: T)) = joinSep "\n".data (t :: T) :=
      trimL_joinSep_clean "\n".data (t :: T) (by simp) hmem
    have hJne : joinSep "\n".data (t :: T) ≠ [] :=
      joinSep_ne_nil "\n".data t T (h t (by simp)).1
    have hJe : (joinSep "\n".data (t :: T)).isEmpty = false :=
      isEmpty_false_of_ne_nil hJne
    have htok : entryToken (SyftLicense.Simple (joinSep "\n".data (t :: T))) =
        some (joinSep "\n".data (t :: T)) := by
      show (if (trimL (joinSep "\n".data (t :: T))).isEmpty then none
        else some (trimL (joinSep "\n".data (t :: T)))) = _
      rw [htrim, hJe]
      simp
    have hfm : List.filterMap entryToken
        [SyftLicense.Simple (joinSep "\n".data (t :: T))] =
        [joinSep "\n".data (t :: T)] := by
      rw [List.filterMap_cons, htok]
      rfl
    have hEx : extract_syft_license_info
        (some [SyftLicense.Simple (joinSep "\n".data (t :: T))]) =
        joinSep "\n".data (t :: T) := by
      show (if (List.filterMap entryToken
          [SyftLicense.Simple (joinSep "\n".data (t :: T))]).isEmpty then "None".data
        else joinSep "\n".data (List.filterMap entryToken
          [SyftLicense.Simple (joinSep "\n".data (t :: T))])) = _
      rw [hfm]
      rfl
    rw [hEx]
    have hsplit : splitPred (fun c => c == '\n') (joinSep "\n".data (t :: T)) =
        t :: T := by
      have hrepr : ("\n".data : Str) = ['\n'] := rfl
      rw [hrepr]
      exact splitPred_joinSep (fun c => c == '\n') '\n' (by decide) (t :: T)
        (by simp)
        fun x hx c hc =>
          mem_beq_false_of_contains_eq_false (h x hx).2.2.2.1 c hc
    unfold allLicenses
    rw [hsplit]
    have hPL : ∀ x ∈ t :: T, processLine x = [x] := fun x hx =>
      processLine_atomic x (h x hx).2.1 (h x hx).1 (h x hx).2.2.1
        (h x hx).2.2.2.2.2 (h x hx).2.2.2.2.1
    rw [flatMap_singleton_of (t :: T) processLine hPL]
    refine List.filter_eq_self.mpr fun x hx => ?_
    have e1 : x.isEmpty = false := isEmpty_false_of_ne_nil (h x hx).1
    have e2 : (x == "None".data) = false := beq_eq_false_iff_ne.mpr (h x hx).2.2.1
    simp [e1, e2]

theorem C3_witness :
    allLicenses (extract_syft_license_info
      (some [SyftLicense.Simple
        (joinSep "\n".data ["MIT".data, "Apache-2.0".data])])) =
      ["MIT".data, "Apache-2.0".data] :=
  C3_thm ["MIT".data, "Apache-2.0".data] (by decide)

/-- Claim C4: if an artifact's license field is absent, or every entry of a
present license list is dropped as blank, the Output Record's licenses string
is exactly "None", in table mode and in CSV mode alike. -/
theorem C4_thm (mode : OutputMode) (artifact : Artifact)
    (entries : List SyftLicense)
    (h : artifact.licenses = none ∨
      (artifact.licenses = some entries ∧ ∀ e ∈ entries, entryToken e = none)) :
    (mkCsvRecord mode artifact).licenses = "None".data := by
  have hEx : extract_syft_license_info artifact.licenses = "None".data := by
    rcases h with h | ⟨h1, h2⟩
    · rw [h]
      rfl
    · rw [h1]
      show (if (List.filterMap entryToken entries).isEmpty then "None".data
        else joinSep "\n".data (List.filterMap entryToken entries)) = _
      rw [List.filterMap_eq_nil_iff.mpr h2]
      rfl
  show formatLicenses mode
    (allLicenses (extract_syft_license_info artifact.licenses)) = _
  rw [hEx]
  have hN : allLicenses "None".data = [] := by decide
  rw [hN]
  cases mode <;> rfl

theorem C4_witness :
    (mkCsvRecord OutputMode.table
      { name := none, version := none, artifact_type := none,
        licenses := some [SyftLicense.Detailed none none none],
        package_url := none, language := none }).licenses = "None".data :=
  C4_thm OutputMode.table _ [SyftLicense.Detailed none none none]
    (Or.inr ⟨rfl, by decide⟩)

/-- Claim C7: for any artifact whose token list is non-empty, the assembled
record joins the tokens with a newline in table mode and with "; " in CSV
mode, and the two modes agree on every other field — the output mode enters
only through the joining of the licenses string. -/
theorem C7_thm (artifact : Artifact) (toks : List Str)
    (htoks : toks = allLicenses (extract_syft_license_info artifact.licenses))
    (hne : toks ≠ []) :
    (mkCsvRecord OutputMode.table artifact).licenses = joinSep "\n".data toks ∧
    (mkCsvRecord OutputMode.csv artifact).licenses = joinSep "; ".data toks ∧
    (mkCsvRecord OutputMode.table artifact).name =
      (mkCsvRecord OutputMode.csv artifact).name ∧
    (mkCsvRecord OutputMode.table artifact).version =
      (mkCsvRecord OutputMode.csv artifact).version ∧
    (mkCsvRecord OutputMode.table artifact).artifact_type =
      (mkCsvRecord OutputMode.csv artifact).artifact_type := by
  have he : toks.isEmpty = false := isEmpty_false_of_ne_nil hne
  refine ⟨?_, ?_, rfl, rfl, rfl⟩
  · show formatLicenses OutputMode.table
      (allLicenses (extract_syft_license_info artifact.licenses)) = _
    rw [← htoks]
    show (if toks.isEmpty then "None".data else joinSep "\n".data toks) = _
    rw [he]
    rfl
  · show formatLicenses OutputMode.csv
      (allLicenses (extract_syft_license_info artifact.licenses)) = _
    rw [← htoks]
    show (if toks.isEmpty then "None".data else joinSep "; ".data toks) = _
    rw [he]
    rfl

theorem C7_witness :
    (mkCsvRecord OutputMode.table
      { name := none, version := none, artifact_type := none,
        licenses := some [SyftLicense.Simple "MIT".data],
        package_url := none, language := none }).licenses =
      joinSep "\n".data ["MIT".data] :=
  (C7_thm _ ["MIT".data] (by decide) (by decide)).1

/-- Claim C8: each of the Output Record fields name, version and type equals
the artifact's corresponding field verbatim when present, and the literal
string "Unknown" when absent. -/
theorem C8_thm (mode : OutputMode) (artifact : Artifact) :
    ((∀ s, artifact.name = some s → (mkCsvRecord mode artifact).name = s) ∧
      (artifact.name = none → (mkCsvRecord mode artifact).name = "Unknown".data)) ∧
    ((∀ s, artifact.version = some s → (mkCsvRecord mode artifact).version = s) ∧
      (artifact.version = none →
        (mkCsvRecord mode artifact).version = "Unknown".data)) ∧
    ((∀ s, artifact.artifact_type = some s →
        (mkCsvRecord mode artifact).artifact_type = s) ∧
      (artifact.artifact_type = none →
        (mkCsvRecord mode artifact).artifact_type = "Unknown".data)) := by
  refine ⟨⟨fun s hs => ?_, fun hn => ?_⟩, ⟨fun s hs => ?_, fun hn => ?_⟩,
    ⟨fun s hs => ?_, fun hn => ?_⟩⟩
  · show artifact.name.getD "Unknown".data = s
    rw [hs]
    rfl
  · show artifact.name.getD "Unknown".data = "Unknown".data
    rw [hn]
    rfl
  · show artifact.version.getD "Unknown".data = s
    rw [hs]
    rfl
  · show artifact.version.getD "Unknown".data = "Unknown".data
    rw [hn]
    rfl
  · show artifact.artifact_type.getD "Unknown".data = s
    rw [hs]
    rfl
  · show artifact.artifact_type.getD "Unknown".data = "Unknown".data
    rw [hn]
    rfl

theorem C8_witness :
    (mkCsvRecord OutputMode.table
      { name := some "lib-a".data, version := none, artifact_type := none,
        licenses := none, package_url := none, language := none }).name =
      "lib-a".data ∧
    (mkCsvRecord OutputMode.table
      { name := some "lib-a".data, version := none, artifact_type := none,
        licenses := none, package_url := none, language := none }).version =
      "Unknown".data :=
  ⟨(C8_thm OutputMode.table _).1.1 "lib-a".data rfl,
    (C8_thm OutputMode.table _).2.1.2 rfl⟩

/-- Claim C9: a well-formed document lacking the artifacts key takes the fatal
error path (exit status 1, no records produced) in either mode, while a
present-but-empty artifacts array is processed successfully into zero records,
and table mode then prints "No artifacts found.". -/
theorem C9_thm :
    processSyftOutput OutputMode.table ⟨none⟩ =
      Except.error "No artifacts found in Syft output".data ∧
    processSyftOutput OutputMode.csv ⟨none⟩ =
      Except.error "No artifacts found in Syft output".data ∧
    exitCode (processSyftOutput OutputMode.table ⟨none⟩) = 1 ∧
    exitCode (processSyftOutput OutputMode.csv ⟨none⟩) = 1 ∧
    processSyftOutput OutputMode.table ⟨some []⟩ = Except.ok [] ∧
    processSyftOutput OutputMode.csv ⟨some []⟩ = Except.ok [] ∧
    print_table [] = TableRender.message "No artifacts found.".data :=
  ⟨rfl, rfl, rfl, rfl, rfl, rfl, rfl⟩

theorem mem_split_license_expression_trim {t e : Str}
    (h : t ∈ split_license_expression e) : trimL t = t := by
  unfold split_license_expression at h
  obtain ⟨part, hpart, hsome⟩ := List.mem_filterMap.mp h
  by_cases hc : ((trimL part).isEmpty || isOpFragment (trimL part)) = true
  · rw [if_pos hc] at hsome
    exact absurd hsome (by simp)
  · rw [if_neg hc] at hsome
    rw [← Option.some.inj hsome]
    exact trimL_idem part

theorem mem_processLine_trim {t line : Str} (h : t ∈ processLine line) :
    trimL t = t := by
  unfold processLine at h
  by_cases hA : ((trimL line).isEmpty || trimL line == "None".data) = true
  · rw [if_pos hA] at h
    simp at h
  · rw [if_neg hA] at h
    by_cases hB : containsOp (trimL line) = true
    · rw [if_pos hB] at h
      exact mem_split_license_expression_trim h
    · rw [if_neg hB] at h
      by_cases hC : (trimL line).contains ';' = true
      · rw [if_pos hC] at h
        have ht := (List.mem_filter.mp h).1
        obtain ⟨part, hpart, hbe⟩ := List.mem_map.mp ht
        rw [← hbe]
        exact trimL_idem part
      · rw [if_neg hC] at h
        have : t = trimL line := by simpa using h
        rw [this]
        exact trimL_idem line

/-- Claim C10: every token produced by the splitting pipeline, before the
mode-specific joining, is non-empty, carries no leading or trailing
whitespace, and differs from the exact string "None". -/
theorem C10_thm (raw t : Str) (h : t ∈ allLicenses raw) :
    t ≠ [] ∧ trimL t = t ∧ t ≠ "None".data := by
  unfold allLicenses at h
  obtain ⟨hmem, hq⟩ := List.mem_filter.mp h
  obtain ⟨line, hline, hpl⟩ := List.mem_flatMap.mp hmem
  rw [Bool.and_eq_true] at hq
  obtain ⟨hqa, hqb⟩ := hq
  rw [Bool.not_eq_true'] at hqa hqb
  refine ⟨?_, mem_processLine_trim hpl, beq_eq_false_iff_ne.mp hqb⟩
  intro hnil
  rw [hnil] at hqa
  simp at hqa

theorem C10_witness :
    "MIT".data ≠ ([] : Str) ∧ trimL "MIT".data = "MIT".data ∧
      "MIT".data ≠ "None".data :=
  C10_thm "MIT AND ISC".data "MIT".data (by decide)
